import Mathlib

/-
Verification of the commit-log replayer core
(src/db/commitlog/commitlog_replayer.cc) against its natural-language
specification.  The C++ orchestration is shallowly embedded: unordered
maps become association lists over Nat keys, futures become plain
values, per-entry exception handling becomes an explicit outcome type,
and the external collaborators (segment reader, filename parser,
storage apply) are modelled from the spec where their code is not part
of the repository.
-/

set_option autoImplicit false

namespace CLReplay

/-- Modelled from the spec: `ReplayPosition` (defined in `commitlog.hh`,
which is not part of the repository sources here) is a totally ordered
pair `(segment id, offset)` carrying an out-of-band `shard_id` that does
not participate in the order; the default/empty position is less than
every real position. -/
structure replay_position where
  shard_id : Nat
  id : Nat
  pos : Nat
deriving DecidableEq, Repr

/-- Modelled from the spec: the default-constructed (empty/zero) replay
position. -/
def rp_empty : replay_position := ⟨0, 0, 0⟩

/-- Modelled from the spec: strict order on replay positions, lexicographic
on `(id, pos)`; the shard id is out of band. -/
def rp_lt (a b : replay_position) : Prop :=
  a.id < b.id ∨ (a.id = b.id ∧ a.pos < b.pos)

instance rp_lt_dec (a b : replay_position) : Decidable (rp_lt a b) := by
  unfold rp_lt; exact inferInstance

/-- Modelled from the spec: non-strict order on replay positions. -/
def rp_le (a b : replay_position) : Prop :=
  rp_lt a b ∨ (a.id = b.id ∧ a.pos = b.pos)

instance rp_le_dec (a b : replay_position) : Decidable (rp_le a b) := by
  unfold rp_le; exact inferInstance

/-- Translation of `std::max` over replay positions as used in `init`:
`std::max(a, b)` returns `b` exactly when `a < b`. -/
def rp_max (a b : replay_position) : replay_position :=
  if rp_lt a b then b else a

/-- Association-list lookup over Nat keys; stands for
`std::unordered_map::find` / `::at` / `::count`. -/
def alookup {α : Type} (k : Nat) : List (Nat × α) → Option α
  | [] => none
  | p :: rest => if k = p.1 then some p.2 else alookup k rest

/-- Association-list insert-or-assign over Nat keys; stands for
`std::unordered_map::operator[]` followed by an assignment (and for
`emplace` when the key is known to be absent). -/
def aupdate {α : Type} (k : Nat) (v : α) : List (Nat × α) → List (Nat × α)
  | [] => [(k, v)]
  | p :: rest => if k = p.1 then (k, v) :: rest else p :: aupdate k v rest

/-- `rp_map` from the source: table UUID → replay position. -/
abbrev rp_map := List (Nat × replay_position)

/-- `shard_rpm_map` from the source: shard id → (table UUID → position). -/
abbrev shard_rpm_map := List (Nat × rp_map)

/-- `shard_rp_map` from the source: shard id → replay position. -/
abbrev shard_rp_map := List (Nat × replay_position)

/-- The live table catalogue (`get_column_families`): table UUID → current
schema version.  `init` iterates its keys; `process` looks tables up in it. -/
abbrev catalogue_t := List (Nat × Nat)

/-- Translation of the map step of `init`'s map-reduce: one cpu folds every
observed `(table uuid, replay position)` contribution (sstable metadata
positions and truncation records alike) into a `shard_rpm_map`, keyed by
the position's shard id, keeping the per-(shard, table) maximum.
Source: `commitlog_replayer.cc` lines 144-173
(`map[p.shard_id()][uuid]; pp = std::max(pp, p)`). -/
def map_step (contribs : List (Nat × replay_position)) : shard_rpm_map :=
  contribs.foldl
    (fun m c =>
      let sub := (alookup c.2.shard_id m).getD []
      let old := (alookup c.1 sub).getD rp_empty
      aupdate c.2.shard_id (aupdate c.1 (rp_max old c.2) sub) m)
    []

/-- Translation of the body of the reduce lambda of `init` for a single
`(uuid, position)` pair `e` of shard `s0`: fold the pair into `_rpm`
(per-(shard, table) maximum, default-constructed start) and into
`_min_pos` (running minimum per shard).
Source: `commitlog_replayer.cc` lines 133-142. -/
def reduce_entry (s0 : Nat) (st : shard_rpm_map × shard_rp_map)
    (e : Nat × replay_position) : shard_rpm_map × shard_rp_map :=
  let sub := (alookup s0 st.1).getD []
  let old := (alookup e.1 sub).getD rp_empty
  let rpm := aupdate s0 (aupdate e.1 (rp_max old e.2) sub) st.1
  let mp :=
    match alookup s0 st.2 with
    | none => aupdate s0 e.2 st.2
    | some cur => if rp_lt e.2 cur then aupdate s0 e.2 st.2 else st.2
  (rpm, mp)

/-- Translation of the reduce lambda of `init` applied to one cpu's map:
iterate its shards, then each shard's `(uuid, position)` pairs. -/
def reduce_map (st : shard_rpm_map × shard_rp_map) (m : shard_rpm_map) :
    shard_rpm_map × shard_rp_map :=
  m.foldl (fun acc p => p.2.foldl (reduce_entry p.1) acc) st

/-- The state `(_rpm, _min_pos)` after `init`'s map-reduce has consumed
every cpu's map, before the `finally` missing-table correction runs. -/
def init_reduce (cpu_maps : List shard_rpm_map) : shard_rpm_map × shard_rp_map :=
  cpu_maps.foldl reduce_map ([], [])

/-- Translation of the inner loop of `init`'s `finally` block for one
catalogue table `t`: for each shard present in `_rpm`, if that shard's
map has no entry for `t`, reset the shard's global minimum to the
empty position.  Source: `commitlog_replayer.cc` lines 186-192. -/
def fix_table (t : Nat) (rpm : shard_rpm_map) (mp : shard_rp_map) : shard_rp_map :=
  rpm.foldl
    (fun mp1 p => if alookup t p.2 = none then aupdate p.1 rp_empty mp1 else mp1)
    mp

/-- Translation of `init`'s `finally` block: iterate every table known to
the live catalogue and apply `fix_table`. -/
def missing_fix (cat : catalogue_t) (rpm : shard_rpm_map) (mp : shard_rp_map) :
    shard_rp_map :=
  cat.foldl (fun mp0 tv => fix_table tv.1 rpm mp0) mp

/-- Translation of `commitlog_replayer::impl::init`: build `(_rpm, _min_pos)`
from the per-cpu contribution lists, then apply the missing-table
correction against the live catalogue. -/
def init (cpus : List (List (Nat × replay_position))) (cat : catalogue_t) :
    shard_rpm_map × shard_rp_map :=
  let st := init_reduce (cpus.map map_step)
  (st.1, missing_fix cat st.1 st.2)

/-- A decoded commit-log entry.  `column_family_id` and `schema_version`
mirror the accessors of `frozen_mutation` / `commitlog_entry_reader`;
`column_mapping` is the optional embedded mapping
(`cer.get_column_mapping()`, kept abstract here); `key_token` stands for the
partition key used by `shard_of`; `apply_ok` is an oracle flag —
modelled from the spec — for whether the external storage-engine apply
(`cf.apply`, including schema conversion) succeeds on this entry. -/
structure mutation_entry where
  column_family_id : Nat
  schema_version : Nat
  column_mapping : Option Nat
  key_token : Nat
  apply_ok : Bool
deriving DecidableEq, Repr

/-- The per-shard `column_mappings` cache: schema version → column mapping
(kept abstract). -/
abbrev schema_cache := List (Nat × Nat)

/-- Which statistics counter (if any) one call of `process` bumps:
`applied` (`s->applied_mutations++`), `skipped`, `invalid`, or `dropped`
for the silently ignored `no_such_column_family` case, which bumps no
counter at all. -/
inductive proc_outcome
  | applied
  | skipped
  | invalid
  | dropped
deriving DecidableEq, Repr

/-- Result of one `process` call: the (possibly grown) shard-local schema
cache, the counter outcome, and the destination shard the entry was
shipped to via `invoke_on` (`none` when the entry never reached the
dispatch). -/
structure proc_result where
  cache : schema_cache
  outcome : proc_outcome
  dispatched : Option Nat
deriving DecidableEq, Repr

/-- The read-only state `process` and `recover` consult: the live table
catalogue, `_rpm` and `_min_pos` as built by `init`. -/
structure env_t where
  catalogue : catalogue_t
  rpm : shard_rpm_map
  min_pos : shard_rp_map
deriving DecidableEq, Repr

/-- Translation of the schema-cache lookup at the top of `process`
(`commitlog_replayer.cc` lines 246-254): a cache hit leaves the cache
unchanged; a miss with an embedded mapping inserts it; a miss without
one is the thrown `unknown schema version` error (`none`). -/
def resolve_mapping (cache : schema_cache) (fm : mutation_entry) :
    Option schema_cache :=
  match alookup fm.schema_version cache with
  | some _ => some cache
  | none =>
    match fm.column_mapping with
    | none => none
    | some cm => some (aupdate fm.schema_version cm cache)

/-- Translation of the fine-skip test of `process`
(`commitlog_replayer.cc` lines 264-271): true exactly when `_rpm` for
this shard contains the entry's table with a recorded position `tp` and
`rp <= tp`. -/
def fine_skip (m : rp_map) (t : Nat) (rp : replay_position) : Bool :=
  match alookup t m with
  | some tp => if rp_le rp tp then true else false
  | none => false

/-- Translation of `commitlog_replayer::impl::process`
(`commitlog_replayer.cc` lines 240-320).  `buf = none` stands for a
buffer whose `commitlog_entry_reader` constructor throws (malformed
payload).  The C++ exception paths become outcomes: any exception
reaching the final `catch (...)` is `invalid`; `no_such_column_family`
thrown by `shard_of` before the dispatch is `dropped`; exceptions
inside the `invoke_on` apply (caught by `handle_exception`) are
`invalid`.  Note the source consults the schema cache *before* the
coarse and fine skip tests, and reads `_min_pos`/`_rpm` with `at()`,
whose `std::out_of_range` is swallowed by `catch (...)` as `invalid`. -/
def process (env : env_t) (cache : schema_cache) (buf : Option mutation_entry)
    (rp : replay_position) : proc_result :=
  match buf with
  | none => ⟨cache, .invalid, none⟩
  | some fm =>
    match resolve_mapping cache fm with
    | none => ⟨cache, .invalid, none⟩
    | some cache1 =>
      match alookup rp.shard_id env.min_pos with
      | none => ⟨cache1, .invalid, none⟩
      | some gmin =>
        if rp_lt rp gmin then ⟨cache1, .skipped, none⟩
        else
          match alookup rp.shard_id env.rpm with
          | none => ⟨cache1, .invalid, none⟩
          | some map =>
            if fine_skip map fm.column_family_id rp then ⟨cache1, .skipped, none⟩
            else
              match alookup fm.column_family_id env.catalogue with
              | none => ⟨cache1, .dropped, none⟩
              | some _ =>
                if fm.apply_ok then ⟨cache1, .applied, some fm.key_token⟩
                else ⟨cache1, .invalid, some fm.key_token⟩

/-- Translation of `impl::stats` (`commitlog_replayer.cc` lines 83-101). -/
structure stats where
  invalid_mutations : Nat
  skipped_mutations : Nat
  applied_mutations : Nat
  corrupt_bytes : Nat
deriving DecidableEq, Repr

/-- A freshly value-initialized `stats` (all counters zero). -/
def stats0 : stats := ⟨0, 0, 0, 0⟩

/-- Translation of `stats::operator+=` / `operator+`: component-wise sum. -/
def stats_add (a b : stats) : stats :=
  ⟨a.invalid_mutations + b.invalid_mutations,
   a.skipped_mutations + b.skipped_mutations,
   a.applied_mutations + b.applied_mutations,
   a.corrupt_bytes + b.corrupt_bytes⟩

/-- The counter increment one `process` outcome performs on a `stats`
value (`s->applied_mutations++` etc.; a dropped entry touches nothing). -/
def bump (s : stats) : proc_outcome → stats
  | .applied =>
    ⟨s.invalid_mutations, s.skipped_mutations, s.applied_mutations + 1,
     s.corrupt_bytes⟩
  | .skipped =>
    ⟨s.invalid_mutations, s.skipped_mutations + 1, s.applied_mutations,
     s.corrupt_bytes⟩
  | .invalid =>
    ⟨s.invalid_mutations + 1, s.skipped_mutations, s.applied_mutations,
     s.corrupt_bytes⟩
  | .dropped => s

/-- The statistics a sequence of per-entry outcomes accumulates, starting
from a fresh `stats`. -/
def tally (os : List proc_outcome) : stats := os.foldl bump stats0

/-- How reading one segment file ends: cleanly, with
`segment_data_corruption_error` carrying the unreadable tail byte
count, or with some other (fatal) I/O error. -/
inductive read_end
  | ok
  | corrupt (bytes : Nat)
  | io_error
deriving DecidableEq, Repr

/-- One commit-log segment file, already parsed: the shard id and segment
id from its filename descriptor, the framed entries it contains as
`(offset, decoded buffer)` pairs in file order (`none` = a frame whose
payload does not decode), and how reading it ends. -/
structure segment_file where
  shard_id : Nat
  id : Nat
  entries : List (Nat × Option mutation_entry)
  tail : read_end
deriving DecidableEq, Repr

/-- Modelled from the spec: `db::commitlog::read_log_file` seeks to
`start` and then streams the framed entries from there, i.e. delivers
exactly the entries whose offset is at least `start`. -/
def read_log_file (f : segment_file) (start : Nat) :
    List (Nat × Option mutation_entry) :=
  f.entries.filter (fun e => decide (start ≤ e.1))

/-- Run `process` over a delivered entry list in file order, threading the
shard-local schema cache and collecting the per-entry outcomes.  Each
entry's replay position is `(shard s, segment id i, its offset)`. -/
def process_all (env : env_t) (s i : Nat) :
    schema_cache → List (Nat × Option mutation_entry) →
    schema_cache × List proc_outcome
  | cache, [] => (cache, [])
  | cache, e :: rest =>
    let r := process env cache e.2 ⟨s, i, e.1⟩
    let t := process_all env s i r.cache rest
    (t.1, r.outcome :: t.2)

/-- How `recover` can fail: `std::out_of_range` from `_min_pos.at` on a
shard with no watermark entry, or a non-corruption read failure that
the final `catch (...) { throw; }` rethrows. -/
inductive recover_error
  | out_of_range
  | io_fail
deriving DecidableEq, Repr

/-- Add tail-corruption bytes to a `stats` value
(`s->corrupt_bytes += e.bytes()`). -/
def add_corrupt (s : stats) (b : Nat) : stats :=
  ⟨s.invalid_mutations, s.skipped_mutations, s.applied_mutations,
   s.corrupt_bytes + b⟩

/-- The read-and-process phase of `recover` for one file from a given
start offset: process every delivered entry, then settle the read
result — a clean end returns the accumulated statistics, tail
corruption adds its byte count to `corrupt_bytes`, any other read
failure propagates. -/
def segment_run (env : env_t) (cache : schema_cache) (f : segment_file)
    (start : Nat) : Except recover_error (schema_cache × stats) :=
  let t := process_all env f.shard_id f.id cache (read_log_file f start)
  match f.tail with
  | .ok => .ok (t.1, tally t.2)
  | .corrupt b => .ok (t.1, add_corrupt (tally t.2) b)
  | .io_error => .error .io_fail

/-- Translation of `commitlog_replayer::impl::recover`
(`commitlog_replayer.cc` lines 205-238): look the file's shard up in
`_min_pos` with `at()` (`std::out_of_range` propagates to the caller);
a segment id below the global minimum's id is skipped whole with zero
statistics; a matching id starts reading at the minimum's offset;
a larger id starts at offset 0. -/
def recover (env : env_t) (cache : schema_cache) (f : segment_file) :
    Except recover_error (schema_cache × stats) :=
  match alookup f.shard_id env.min_pos with
  | none => .error .out_of_range
  | some gp =>
    if f.id < gp.id then .ok (cache, stats0)
    else segment_run env cache f (if f.id = gp.id then gp.pos else 0)

/-- Translation of the per-shard `do_for_each` of
`commitlog_replayer::recover(std::vector<sstring>)`
(`commitlog_replayer.cc` lines 356-380): one shard replays its assigned
files serially, threading its schema cache and summing the per-file
statistics; any exception aborts the whole chain. -/
def recover_files (env : env_t) :
    schema_cache → List segment_file → Except recover_error (schema_cache × stats)
  | cache, [] => .ok (cache, stats0)
  | cache, f :: fs =>
    match recover env cache f with
    | .error e => .error e
    | .ok t =>
      match recover_files env t.1 fs with
      | .error e => .error e
      | .ok u => .ok (u.1, stats_add t.2 u.2)

/-- Translation of the cross-shard map-reduce of
`commitlog_replayer::recover(std::vector<sstring>)`: every shard
starts from a freshly started (empty) schema cache, replays its file
list, and the per-shard statistics are reduced with `stats` addition;
a failure on any shard fails the whole replay. -/
def recover_all (env : env_t) :
    List (List segment_file) → Except recover_error stats
  | [] => .ok stats0
  | l :: ls =>
    match recover_files env [] l with
    | .error e => .error e
    | .ok t =>
      match recover_all env ls with
      | .error e => .error e
      | .ok st => .ok (stats_add t.2 st)

/-- Mirror of `recover` that records the per-entry outcome list instead of
the statistics (used to count delivered and dropped entries). -/
def file_outcomes (env : env_t) (cache : schema_cache) (f : segment_file) :
    Option (schema_cache × List proc_outcome) :=
  match alookup f.shard_id env.min_pos with
  | none => none
  | some gp =>
    if f.id < gp.id then some (cache, [])
    else
      match f.tail with
      | .io_error => none
      | _ =>
        some (process_all env f.shard_id f.id cache
          (read_log_file f (if f.id = gp.id then gp.pos else 0)))

/-- Mirror of `recover_files` at the outcome level. -/
def files_outcomes (env : env_t) :
    schema_cache → List segment_file → Option (schema_cache × List proc_outcome)
  | cache, [] => some (cache, [])
  | cache, f :: fs =>
    match file_outcomes env cache f with
    | none => none
    | some t =>
      match files_outcomes env t.1 fs with
      | none => none
      | some u => some (u.1, t.2 ++ u.2)

/-- Mirror of `recover_all` at the outcome level. -/
def all_outcomes (env : env_t) :
    List (List segment_file) → Option (List proc_outcome)
  | [] => some []
  | l :: ls =>
    match files_outcomes env [] l with
    | none => none
    | some t =>
      match all_outcomes env ls with
      | none => none
      | some os => some (t.2 ++ os)

/-- Number of entries in an outcome list that were silently dropped
because their table no longer exists. -/
def ndropped : List proc_outcome → Nat
  | [] => 0
  | .dropped :: r => ndropped r + 1
  | _ :: r => ndropped r

/-- Number of decodable framed entries across a list of segment files. -/
def decodable_entries_one : List (Nat × Option mutation_entry) → Nat
  | [] => 0
  | (_, some _) :: r => decodable_entries_one r + 1
  | (_, none) :: r => decodable_entries_one r

/-- Number of decodable framed entries across a list of segment files. -/
def decodable_entries : List segment_file → Nat
  | [] => 0
  | f :: r => decodable_entries_one f.entries + decodable_entries r

/-- One step of the running minimum `init`'s reduce keeps per shard:
exactly `if (i == end || p < cur) min = p`. -/
def rp_min_acc (a : Option replay_position) (p : replay_position) :
    Option replay_position :=
  match a with
  | none => some p
  | some c => if rp_lt p c then some p else some c

/-- Running minimum over a list of replay positions, in list order. -/
def rp_min_fold (a : Option replay_position) (l : List replay_position) :
    Option replay_position :=
  l.foldl rp_min_acc a

/-- All positions one cpu map contributes for shard `s`, in the order the
reduce lambda visits them. -/
def shard_contribs_one (s : Nat) : shard_rpm_map → List replay_position
  | [] => []
  | p :: rest =>
    (if s = p.1 then p.2.map Prod.snd else []) ++ shard_contribs_one s rest

/-- All positions a list of cpu maps contributes for shard `s`, in reduce
order. -/
def shard_contribs (s : Nat) : List shard_rpm_map → List replay_position
  | [] => []
  | m :: rest => shard_contribs_one s m ++ shard_contribs s rest

/-- The sum of the three per-entry counters of a `stats` value. -/
def sum3 (s : stats) : Nat :=
  s.applied_mutations + s.skipped_mutations + s.invalid_mutations

/-- Prepend one file's settled statistics to the rest of a shard's serial
replay: an error in the rest still aborts, otherwise the statistics
add up.  Mirrors the `*total += stats` accumulation of `recover_files`. -/
def except_add (st : stats) :
    Except recover_error (schema_cache × stats) →
    Except recover_error (schema_cache × stats)
  | .error e => .error e
  | .ok u => .ok (u.1, stats_add st u.2)

theorem alookup_aupdate {α : Type} (s k : Nat) (v : α) (m : List (Nat × α)) :
    alookup s (aupdate k v m) = if s = k then some v else alookup s m := by
  induction m with
  | nil => simp [aupdate, alookup]
  | cons p rest ih =>
    simp only [aupdate]
    by_cases hk : k = p.1
    · by_cases hs : s = k
      · simp [alookup, if_pos hk, hs]
      · simp [alookup, if_pos hk, hs, hk ▸ hs]
    · by_cases hs : s = p.1
      · have hsk : ¬ s = k := fun h => hk (h ▸ hs)
        have hpk : ¬ p.1 = k := fun h => hk h.symm
        simp [alookup, if_neg hk, hs, hsk, hpk]
      · simp [alookup, if_neg hk, hs, ih]

theorem alookup_mem {α : Type} {s : Nat} {x : α} :
    ∀ {m : List (Nat × α)}, alookup s m = some x → (s, x) ∈ m := by
  intro m
  induction m with
  | nil => intro h; simp [alookup] at h
  | cons p rest ih =>
    intro h
    simp only [alookup] at h
    by_cases hs : s = p.1
    · rw [if_pos hs] at h
      have : (s, x) = p := by
        cases p with
        | mk a b => cases h; simp_all
      simp [this]
    · rw [if_neg hs] at h
      exact List.mem_cons_of_mem _ (ih h)

theorem rp_min_fold_append (a : Option replay_position)
    (l1 l2 : List replay_position) :
    rp_min_fold a (l1 ++ l2) = rp_min_fold (rp_min_fold a l1) l2 := by
  simp [rp_min_fold, List.foldl_append]

theorem reduce_entry_min (s s0 : Nat) (st : shard_rpm_map × shard_rp_map)
    (e : Nat × replay_position) :
    alookup s (reduce_entry s0 st e).2 =
      if s = s0 then rp_min_acc (alookup s st.2) e.2 else alookup s st.2 := by
  simp only [reduce_entry]
  by_cases hs : s = s0
  · subst hs
    cases h : alookup s st.2 with
    | none => simp [h, rp_min_acc, alookup_aupdate]
    | some cur =>
      by_cases hlt : rp_lt e.2 cur
      · simp [h, hlt, rp_min_acc, alookup_aupdate]
      · simp [h, hlt, rp_min_acc]
  · cases h : alookup s0 st.2 with
    | none => simp [h, hs, alookup_aupdate]
    | some cur =>
      by_cases hlt : rp_lt e.2 cur
      · simp [h, hlt, hs, alookup_aupdate]
      · simp [h, hlt, hs]

theorem fold_entries_min (s0 : Nat) (sub : rp_map) :
    ∀ (st : shard_rpm_map × shard_rp_map) (s : Nat),
    alookup s (sub.foldl (reduce_entry s0) st).2 =
      if s = s0 then rp_min_fold (alookup s st.2) (sub.map Prod.snd)
      else alookup s st.2 := by
  induction sub with
  | nil => intro st s; simp [rp_min_fold]
  | cons e rest ih =>
    intro st s
    simp only [List.foldl_cons, List.map_cons]
    rw [ih]
    by_cases hs : s = s0
    · rw [if_pos hs, if_pos hs, reduce_entry_min, if_pos hs]
      simp [rp_min_fold]
    · rw [if_neg hs, if_neg hs, reduce_entry_min, if_neg hs]

theorem reduce_map_min (m : shard_rpm_map) :
    ∀ (st : shard_rpm_map × shard_rp_map) (s : Nat),
    alookup s (reduce_map st m).2 =
      rp_min_fold (alookup s st.2) (shard_contribs_one s m) := by
  induction m with
  | nil => intro st s; simp [reduce_map, shard_contribs_one, rp_min_fold]
  | cons p rest ih =>
    intro st s
    simp only [reduce_map, List.foldl_cons] at ih ⊢
    rw [ih, fold_entries_min]
    simp only [shard_contribs_one]
    rw [rp_min_fold_append]
    by_cases hs : s = p.1
    · rw [if_pos hs, if_pos hs]
    · rw [if_neg hs, if_neg hs]
      simp [rp_min_fold]

theorem init_reduce_min_aux (maps : List shard_rpm_map) :
    ∀ (st : shard_rpm_map × shard_rp_map) (s : Nat),
    alookup s (maps.foldl reduce_map st).2 =
      rp_min_fold (alookup s st.2) (shard_contribs s maps) := by
  induction maps with
  | nil => intro st s; simp [shard_contribs, rp_min_fold]
  | cons m rest ih =>
    intro st s
    simp only [List.foldl_cons, shard_contribs]
    rw [ih, reduce_map_min, rp_min_fold_append]

/-- Claim C2 (amended): after `init`'s map-reduce and before the
missing-table correction, the global minimum recorded for a shard `s`
is the running minimum over every position any cpu map contributed for
`s` (each such position being that cpu's per-table maximum) — not, in
general, the minimum over tables of the aggregated
`per_shard_table_max[s]`. -/
theorem claim2_theorem (cpus : List (List (Nat × replay_position))) (s : Nat) :
    alookup s (init_reduce (cpus.map map_step)).2 =
      rp_min_fold none (shard_contribs s (cpus.map map_step)) := by
  have h := init_reduce_min_aux (cpus.map map_step) ([], []) s
  simpa [init_reduce, alookup] using h

/-- Claim C2 counterexample: two cpus contribute positions with segment
ids 5 and 2 for the same shard 3 and table 7.  The aggregated
`per_shard_table_max[3]` holds exactly one table, 7, at id 5, so the
claimed minimum over tables is id 5; but `init` records id 2 as the
shard's global minimum. -/
theorem claim2_counterexample :
    (init [[(7, ⟨3, 5, 0⟩)], [(7, ⟨3, 2, 0⟩)]] [(7, 0)]).1 =
      [(3, [(7, ⟨3, 5, 0⟩)])] ∧
    (init [[(7, ⟨3, 5, 0⟩)], [(7, ⟨3, 2, 0⟩)]] [(7, 0)]).2 =
      [(3, ⟨3, 2, 0⟩)] ∧
    (⟨3, 2, 0⟩ : replay_position) ≠ ⟨3, 5, 0⟩ := by
  refine ⟨by decide, by decide, by decide⟩

theorem fix_table_preserve (t : Nat) (rpm : shard_rpm_map) (s : Nat) :
    ∀ (mp : shard_rp_map), alookup s mp = some rp_empty →
    alookup s (fix_table t rpm mp) = some rp_empty := by
  induction rpm with
  | nil => intro mp h; simpa [fix_table] using h
  | cons p rest ih =>
    intro mp h
    simp only [fix_table, List.foldl_cons] at ih ⊢
    by_cases hc : alookup t p.2 = none
    · rw [if_pos hc]
      apply ih
      rw [alookup_aupdate]
      by_cases hs : s = p.1 <;> simp [hs, h]
    · rw [if_neg hc]
      exact ih mp h

theorem fix_table_sets (t s : Nat) (sub : rp_map) :
    ∀ (rpm : shard_rpm_map) (mp : shard_rp_map), (s, sub) ∈ rpm →
    alookup t sub = none →
    alookup s (fix_table t rpm mp) = some rp_empty := by
  intro rpm
  induction rpm with
  | nil => intro mp hmem; simp at hmem
  | cons p rest ih =>
    intro mp hmem hnone
    simp only [fix_table, List.foldl_cons]
    rcases List.mem_cons.mp hmem with hhd | htl
    · have hp2 : alookup t p.2 = none := by rw [← hhd] at *; exact hnone
      rw [if_pos hp2]
      have hset : alookup s (aupdate p.1 rp_empty mp) = some rp_empty := by
        rw [alookup_aupdate]
        have : s = p.1 := by rw [← hhd]
        simp [this]
      exact fix_table_preserve t rest s _ hset
    · by_cases hc : alookup t p.2 = none
      · rw [if_pos hc]
        exact ih _ htl hnone
      · rw [if_neg hc]
        exact ih _ htl hnone

theorem missing_fix_preserve (cat : catalogue_t) (rpm : shard_rpm_map) (s : Nat) :
    ∀ (mp : shard_rp_map), alookup s mp = some rp_empty →
    alookup s (missing_fix cat rpm mp) = some rp_empty := by
  induction cat with
  | nil => intro mp h; simpa [missing_fix] using h
  | cons tv rest ih =>
    intro mp h
    simp only [missing_fix, List.foldl_cons] at ih ⊢
    exact ih _ (fix_table_preserve tv.1 rpm s mp h)

theorem missing_fix_sets (t v s : Nat) (sub : rp_map) (rpm : shard_rpm_map) :
    ∀ (cat : catalogue_t) (mp : shard_rp_map), (t, v) ∈ cat → (s, sub) ∈ rpm →
    alookup t sub = none →
    alookup s (missing_fix cat rpm mp) = some rp_empty := by
  intro cat
  induction cat with
  | nil => intro mp hmem; simp at hmem
  | cons tv rest ih =>
    intro mp hmem hrpm hnone
    simp only [missing_fix, List.foldl_cons]
    rcases List.mem_cons.mp hmem with hhd | htl
    · have ht : tv.1 = t := by rw [← hhd]
      have hset : alookup s (fix_table tv.1 rpm mp) = some rp_empty := by
        rw [ht]; exact fix_table_sets t s sub rpm mp hrpm hnone
      exact missing_fix_preserve rest rpm s _ hset
    · exact ih _ htl hrpm hnone

/-- Claim C3: after `init`, for every shard `s` present in the watermark
aggregate `_rpm` and every table `t` known to the live catalogue, if
`t` is absent from the shard's per-table map then the shard's global
minimum has been reset to the empty position. -/
theorem claim3_theorem (cpus : List (List (Nat × replay_position)))
    (cat : catalogue_t) (s t v : Nat) (sub : rp_map)
    (h1 : alookup s (init cpus cat).1 = some sub)
    (h2 : (t, v) ∈ cat)
    (h3 : alookup t sub = none) :
    alookup s (init cpus cat).2 = some rp_empty := by
  simp only [init] at h1 ⊢
  exact missing_fix_sets t v s sub _ cat _ h2 (alookup_mem h1) h3

/-- Claim C3 witness: one cpu contributes table 1 on shard 0 at id 4; the
catalogue also knows table 2, which has no contribution, so shard 0's
global minimum is forced to the empty position. -/
theorem claim3_witness :
    alookup 0 (init [[(1, ⟨0, 4, 0⟩)]] [(1, 0), (2, 0)]).1 =
      some [(1, ⟨0, 4, 0⟩)] ∧
    ((2 : Nat), (0 : Nat)) ∈ ([(1, 0), (2, 0)] : catalogue_t) ∧
    alookup 2 [(1, (⟨0, 4, 0⟩ : replay_position))] = none ∧
    alookup 0 (init [[(1, ⟨0, 4, 0⟩)]] [(1, 0), (2, 0)]).2 = some rp_empty :=
  ⟨by decide, by decide, by decide,
    claim3_theorem [[(1, ⟨0, 4, 0⟩)]] [(1, 0), (2, 0)] 0 2 0 [(1, ⟨0, 4, 0⟩)]
      (by decide) (by decide) (by decide)⟩

/-- Claim C1 counterexample: an entry at position id 3 on shard 0, strictly
below the shard's global minimum (id 10), whose schema version 5 is not
in the (empty) schema cache and which carries no embedded mapping, is
counted `invalid` — not `skipped` — because `process` consults the
schema cache before the coarse-skip test and the thrown
`unknown schema version` lands in `catch (...)`. -/
theorem claim1_counterexample :
    alookup (0 : Nat) ([(0, ⟨0, 10, 0⟩)] : shard_rp_map) =
      some ⟨0, 10, 0⟩ ∧
    rp_lt ⟨0, 3, 0⟩ ⟨0, 10, 0⟩ ∧
    (process ⟨[(0, 0)], [(0, [])], [(0, ⟨0, 10, 0⟩)]⟩ []
      (some ⟨0, 5, none, 0, true⟩) ⟨0, 3, 0⟩).outcome = .invalid ∧
    (process ⟨[(0, 0)], [(0, [])], [(0, ⟨0, 10, 0⟩)]⟩ []
      (some ⟨0, 5, none, 0, true⟩) ⟨0, 3, 0⟩).outcome ≠ .skipped :=
  ⟨by decide, by decide, by decide, by decide⟩

/-- Claim C1 (amended): for every entry processed during replay whose
schema version resolves (a cache hit, or an embedded mapping to
insert), if its position is strictly below the shard's global minimum
then the entry is counted in `skipped` — incremented by exactly one —
and is not dispatched to any shard's apply path.  An entry whose schema
version is unknown and which carries no embedded mapping is instead
counted `invalid`, because `process` resolves the schema before the
coarse-skip test. -/
theorem claim1_theorem (env : env_t) (cache cache1 : schema_cache)
    (fm : mutation_entry) (rp g : replay_position) (st : stats)
    (hr : resolve_mapping cache fm = some cache1)
    (hg : alookup rp.shard_id env.min_pos = some g)
    (hlt : rp_lt rp g) :
    process env cache (some fm) rp = ⟨cache1, .skipped, none⟩ ∧
    bump st .skipped =
      ⟨st.invalid_mutations, st.skipped_mutations + 1, st.applied_mutations,
       st.corrupt_bytes⟩ := by
  exact ⟨by simp [process, hr, hg, hlt], rfl⟩

/-- Claim C1 witness. -/
theorem claim1_witness :
    resolve_mapping [(5, 9)] ⟨0, 5, none, 0, true⟩ = some [(5, 9)] ∧
    alookup (replay_position.mk 0 1 0).shard_id
      ([(0, ⟨0, 10, 0⟩)] : shard_rp_map) = some ⟨0, 10, 0⟩ ∧
    rp_lt ⟨0, 1, 0⟩ ⟨0, 10, 0⟩ ∧
    (process ⟨[(0, 0)], [(0, [])], [(0, ⟨0, 10, 0⟩)]⟩ [(5, 9)]
        (some ⟨0, 5, none, 0, true⟩) ⟨0, 1, 0⟩ =
        ⟨[(5, 9)], .skipped, none⟩ ∧
      bump stats0 .skipped =
        ⟨stats0.invalid_mutations, stats0.skipped_mutations + 1,
         stats0.applied_mutations, stats0.corrupt_bytes⟩) :=
  ⟨by decide, by decide, by decide,
    claim1_theorem ⟨[(0, 0)], [(0, [])], [(0, ⟨0, 10, 0⟩)]⟩ [(5, 9)] [(5, 9)]
      ⟨0, 5, none, 0, true⟩ ⟨0, 1, 0⟩ ⟨0, 10, 0⟩ stats0
      (by decide) (by decide) (by decide)⟩

/-- Claim C4 counterexample: an entry on shard 1 at id 4, at or above the
global minimum (id 0) and at or below its table's recorded maximum
(table 5 at id 9), but with an unknown schema version and no embedded
mapping, is counted `invalid` — not `skipped`. -/
theorem claim4_counterexample :
    ¬ rp_lt ⟨1, 4, 0⟩ ⟨1, 0, 0⟩ ∧
    alookup (5 : Nat) ([(5, ⟨1, 9, 0⟩)] : rp_map) = some ⟨1, 9, 0⟩ ∧
    rp_le ⟨1, 4, 0⟩ ⟨1, 9, 0⟩ ∧
    (process ⟨[(5, 0)], [(1, [(5, ⟨1, 9, 0⟩)])], [(1, ⟨1, 0, 0⟩)]⟩ []
      (some ⟨5, 3, none, 0, true⟩) ⟨1, 4, 0⟩).outcome = .invalid ∧
    (process ⟨[(5, 0)], [(1, [(5, ⟨1, 9, 0⟩)])], [(1, ⟨1, 0, 0⟩)]⟩ []
      (some ⟨5, 3, none, 0, true⟩) ⟨1, 4, 0⟩).outcome ≠ .skipped :=
  ⟨by decide, by decide, by decide, by decide, by decide⟩

/-- Claim C4 (amended): for every entry whose schema version resolves, at
or above the shard's global minimum, if `_rpm` for the shard records
the entry's table with value `tp` then the entry is skipped exactly
when `rp ≤ tp` — the boundary is inclusive, an entry equal to the
recorded high-water mark is skipped and is not dispatched, and an
entry strictly above it is not skipped by this rule.  An entry whose
schema version is unknown with no embedded mapping is counted
`invalid` instead, because the schema is resolved before the skip
tests. -/
theorem claim4_theorem (env : env_t) (cache cache1 : schema_cache)
    (fm : mutation_entry) (rp g tp : replay_position) (m : rp_map) (st : stats)
    (hr : resolve_mapping cache fm = some cache1)
    (hg : alookup rp.shard_id env.min_pos = some g)
    (hge : ¬ rp_lt rp g)
    (hm : alookup rp.shard_id env.rpm = some m)
    (ht : alookup fm.column_family_id m = some tp) :
    (rp_le rp tp →
      process env cache (some fm) rp = ⟨cache1, .skipped, none⟩ ∧
      bump st .skipped =
        ⟨st.invalid_mutations, st.skipped_mutations + 1, st.applied_mutations,
         st.corrupt_bytes⟩) ∧
    (¬ rp_le rp tp → (process env cache (some fm) rp).outcome ≠ .skipped) := by
  constructor
  · intro hle
    refine ⟨?_, rfl⟩
    simp [process, hr, hg, hge, hm, fine_skip, ht, hle]
  · intro hnle
    simp only [process, hr, hg, hge, hm, fine_skip, ht, hnle, if_neg, if_false]
    cases hc : alookup fm.column_family_id env.catalogue with
    | none => simp [hge, hnle, hc]
    | some w =>
      cases hak : fm.apply_ok <;> simp [hge, hnle, hc, hak]

/-- Claim C4 witness. -/
theorem claim4_witness :
    resolve_mapping [(3, 2)] ⟨5, 3, none, 0, true⟩ = some [(3, 2)] ∧
    alookup (replay_position.mk 1 4 0).shard_id
      ([(1, ⟨1, 0, 0⟩)] : shard_rp_map) = some ⟨1, 0, 0⟩ ∧
    ¬ rp_lt ⟨1, 4, 0⟩ ⟨1, 0, 0⟩ ∧
    alookup (replay_position.mk 1 4 0).shard_id
      ([(1, [(5, ⟨1, 9, 0⟩)])] : shard_rpm_map) = some [(5, ⟨1, 9, 0⟩)] ∧
    alookup (5 : Nat) ([(5, ⟨1, 9, 0⟩)] : rp_map) = some ⟨1, 9, 0⟩ ∧
    ((rp_le ⟨1, 4, 0⟩ ⟨1, 9, 0⟩ →
      process ⟨[(5, 0)], [(1, [(5, ⟨1, 9, 0⟩)])], [(1, ⟨1, 0, 0⟩)]⟩ [(3, 2)]
          (some ⟨5, 3, none, 0, true⟩) ⟨1, 4, 0⟩ = ⟨[(3, 2)], .skipped, none⟩ ∧
      bump stats0 .skipped =
        ⟨stats0.invalid_mutations, stats0.skipped_mutations + 1,
         stats0.applied_mutations, stats0.corrupt_bytes⟩) ∧
    (¬ rp_le ⟨1, 4, 0⟩ ⟨1, 9, 0⟩ →
      (process ⟨[(5, 0)], [(1, [(5, ⟨1, 9, 0⟩)])], [(1, ⟨1, 0, 0⟩)]⟩ [(3, 2)]
          (some ⟨5, 3, none, 0, true⟩) ⟨1, 4, 0⟩).outcome ≠ .skipped)) :=
  ⟨by decide, by decide, by decide, by decide, by decide,
    claim4_theorem ⟨[(5, 0)], [(1, [(5, ⟨1, 9, 0⟩)])], [(1, ⟨1, 0, 0⟩)]⟩
      [(3, 2)] [(3, 2)] ⟨5, 3, none, 0, true⟩ ⟨1, 4, 0⟩ ⟨1, 0, 0⟩ ⟨1, 9, 0⟩
      [(5, ⟨1, 9, 0⟩)] stats0
      (by decide) (by decide) (by decide) (by decide) (by decide)⟩

/-- Claim C7: an entry whose schema version is not in the shard's cache
and which carries no embedded column mapping raises the
`unknown schema version` error, which is caught per entry: `invalid`
is incremented by exactly one, the entry is not dispatched or applied,
the cache is unchanged, and processing continues with the subsequent
entries of the segment. -/
theorem claim7_theorem (env : env_t) (cache : schema_cache)
    (fm : mutation_entry) (rp : replay_position) (s i off : Nat)
    (rest : List (Nat × Option mutation_entry)) (st : stats)
    (hc : alookup fm.schema_version cache = none)
    (hm : fm.column_mapping = none) :
    process env cache (some fm) rp = ⟨cache, .invalid, none⟩ ∧
    bump st .invalid =
      ⟨st.invalid_mutations + 1, st.skipped_mutations, st.applied_mutations,
       st.corrupt_bytes⟩ ∧
    process_all env s i cache ((off, some fm) :: rest) =
      ((process_all env s i cache rest).1,
        .invalid :: (process_all env s i cache rest).2) := by
  have hpr : ∀ rp0, process env cache (some fm) rp0 = ⟨cache, .invalid, none⟩ :=
    fun rp0 => by simp [process, resolve_mapping, hc, hm]
  exact ⟨hpr rp, rfl, by simp [process_all, hpr]⟩

/-- Claim C7 witness. -/
theorem claim7_witness :
    alookup (mutation_entry.mk 4 1 none 0 true).schema_version
      ([] : schema_cache) = none ∧
    (mutation_entry.mk 4 1 none 0 true).column_mapping = none ∧
    (process ⟨[(4, 0)], [(0, [])], [(0, rp_empty)]⟩ []
        (some ⟨4, 1, none, 0, true⟩) ⟨0, 2, 0⟩ = ⟨[], .invalid, none⟩ ∧
      bump stats0 .invalid =
        ⟨stats0.invalid_mutations + 1, stats0.skipped_mutations,
         stats0.applied_mutations, stats0.corrupt_bytes⟩ ∧
      process_all ⟨[(4, 0)], [(0, [])], [(0, rp_empty)]⟩ 0 2 []
          ((3, some ⟨4, 1, none, 0, true⟩) :: []) =
        ((process_all ⟨[(4, 0)], [(0, [])], [(0, rp_empty)]⟩ 0 2 [] []).1,
          .invalid ::
            (process_all ⟨[(4, 0)], [(0, [])], [(0, rp_empty)]⟩ 0 2 [] []).2)) :=
  ⟨by decide, by decide,
    claim7_theorem ⟨[(4, 0)], [(0, [])], [(0, rp_empty)]⟩ []
      ⟨4, 1, none, 0, true⟩ ⟨0, 2, 0⟩ 0 2 3 [] stats0
      (by decide) (by decide)⟩

/-- Claim C6: an entry that decodes, whose schema version resolves and
which passes both skip tests, but whose table no longer exists in the
live catalogue, raises `no_such_column_family` during shard routing;
the outer catch ignores it: the entry is silently dropped, no counter
is incremented, it is never dispatched, and replay continues. -/
theorem claim6_theorem (env : env_t) (cache cache1 : schema_cache)
    (fm : mutation_entry) (rp g : replay_position) (m : rp_map) (st : stats)
    (os : List proc_outcome)
    (hr : resolve_mapping cache fm = some cache1)
    (hg : alookup rp.shard_id env.min_pos = some g)
    (hge : ¬ rp_lt rp g)
    (hm : alookup rp.shard_id env.rpm = some m)
    (hf : fine_skip m fm.column_family_id rp = false)
    (hcat : alookup fm.column_family_id env.catalogue = none) :
    process env cache (some fm) rp = ⟨cache1, .dropped, none⟩ ∧
    bump st .dropped = st ∧
    tally (.dropped :: os) = tally os := by
  refine ⟨?_, rfl, rfl⟩
  simp [process, hr, hg, hge, hm, hf, hcat]

/-- Claim C6 witness. -/
theorem claim6_witness :
    resolve_mapping [(1, 0)] ⟨9, 1, none, 0, true⟩ = some [(1, 0)] ∧
    alookup (replay_position.mk 3 1 0).shard_id
      ([(3, rp_empty)] : shard_rp_map) = some rp_empty ∧
    ¬ rp_lt ⟨3, 1, 0⟩ rp_empty ∧
    alookup (replay_position.mk 3 1 0).shard_id
      ([(3, [])] : shard_rpm_map) = some [] ∧
    fine_skip [] (mutation_entry.mk 9 1 none 0 true).column_family_id
      ⟨3, 1, 0⟩ = false ∧
    alookup (mutation_entry.mk 9 1 none 0 true).column_family_id
      ([(0, 0)] : catalogue_t) = none ∧
    (process ⟨[(0, 0)], [(3, [])], [(3, rp_empty)]⟩ [(1, 0)]
        (some ⟨9, 1, none, 0, true⟩) ⟨3, 1, 0⟩ = ⟨[(1, 0)], .dropped, none⟩ ∧
      bump stats0 .dropped = stats0 ∧
      tally (.dropped :: [.applied]) = tally [.applied]) :=
  ⟨by decide, by decide, by decide, by decide, by decide, by decide,
    claim6_theorem ⟨[(0, 0)], [(3, [])], [(3, rp_empty)]⟩ [(1, 0)] [(1, 0)]
      ⟨9, 1, none, 0, true⟩ ⟨3, 1, 0⟩ rp_empty [] stats0 [.applied]
      (by decide) (by decide) (by decide) (by decide) (by decide) (by decide)⟩

theorem foldl_bump_sum3 (os : List proc_outcome) :
    ∀ (s0 : stats), sum3 (os.foldl bump s0) + ndropped os =
      sum3 s0 + os.length := by
  induction os with
  | nil => intro s0; simp [ndropped]
  | cons o rest ih =>
    intro s0
    have h := ih (bump s0 o)
    cases o with
    | applied =>
      have hb : sum3 (bump s0 .applied) = sum3 s0 + 1 := by
        simp only [bump, sum3]; omega
      simp only [List.foldl_cons, List.length_cons, ndropped]
      omega
    | skipped =>
      have hb : sum3 (bump s0 .skipped) = sum3 s0 + 1 := by
        simp only [bump, sum3]; omega
      simp only [List.foldl_cons, List.length_cons, ndropped]
      omega
    | invalid =>
      have hb : sum3 (bump s0 .invalid) = sum3 s0 + 1 := by
        simp only [bump, sum3]; omega
      simp only [List.foldl_cons, List.length_cons, ndropped]
      omega
    | dropped =>
      have hb : sum3 (bump s0 .dropped) = sum3 s0 := by
        simp only [bump, sum3]
      simp only [List.foldl_cons, List.length_cons, ndropped]
      omega

theorem foldl_bump_corrupt (os : List proc_outcome) :
    ∀ (s0 : stats), (os.foldl bump s0).corrupt_bytes = s0.corrupt_bytes := by
  induction os with
  | nil => intro s0; rfl
  | cons o rest ih =>
    intro s0
    cases o
    all_goals simp [List.foldl_cons, ih, bump]

theorem sum3_tally (os : List proc_outcome) :
    sum3 (tally os) + ndropped os = os.length := by
  have h := foldl_bump_sum3 os stats0
  simpa [tally, sum3, stats0] using h

theorem tally_corrupt (os : List proc_outcome) : (tally os).corrupt_bytes = 0 := by
  have h := foldl_bump_corrupt os stats0
  simpa [tally, stats0] using h

theorem ndropped_append (a b : List proc_outcome) :
    ndropped (a ++ b) = ndropped a + ndropped b := by
  induction a with
  | nil => simp [ndropped]
  | cons o rest ih =>
    cases o
    all_goals simp [ndropped, ih]
    all_goals omega

theorem file_rel (env : env_t) (cache : schema_cache) (f : segment_file)
    (c : schema_cache) (os : List proc_outcome)
    (h : file_outcomes env cache f = some (c, os)) :
    ∃ st, recover env cache f = .ok (c, st) ∧
      sum3 st + ndropped os = os.length := by
  unfold file_outcomes at h
  cases hg : alookup f.shard_id env.min_pos with
  | none => simp [hg] at h
  | some gp =>
    simp only [hg] at h
    by_cases hlt : f.id < gp.id
    · rw [if_pos hlt] at h
      have hp := Option.some.inj h
      have hc : cache = c := congrArg Prod.fst hp
      have hos : ([] : List proc_outcome) = os := congrArg Prod.snd hp
      refine ⟨stats0, ?_, ?_⟩
      · rw [← hc]; simp [recover, hg, hlt]
      · rw [← hos]; simp [ndropped, sum3, stats0]
    · rw [if_neg hlt] at h
      cases htail : f.tail with
      | io_error => simp [htail] at h
      | ok =>
        simp only [htail] at h
        have hP := Option.some.inj h
        refine ⟨tally os, ?_, sum3_tally os⟩
        simp [recover, hg, hlt, segment_run, htail, hP]
      | corrupt b =>
        simp only [htail] at h
        have hP := Option.some.inj h
        refine ⟨add_corrupt (tally os) b, ?_, ?_⟩
        · simp [recover, hg, hlt, segment_run, htail, hP]
        · have : sum3 (add_corrupt (tally os) b) = sum3 (tally os) := rfl
          rw [this]
          exact sum3_tally os

theorem files_rel (env : env_t) :
    ∀ (fs : List segment_file) (cache c : schema_cache) (os : List proc_outcome),
    files_outcomes env cache fs = some (c, os) →
    ∃ st, recover_files env cache fs = .ok (c, st) ∧
      sum3 st + ndropped os = os.length := by
  intro fs
  induction fs with
  | nil =>
    intro cache c os h
    simp only [files_outcomes] at h
    have hp := Option.some.inj h
    have hc : cache = c := congrArg Prod.fst hp
    have hos : ([] : List proc_outcome) = os := congrArg Prod.snd hp
    refine ⟨stats0, ?_, ?_⟩
    · rw [← hc]; rfl
    · rw [← hos]; simp [ndropped, sum3, stats0]
  | cons f rest ih =>
    intro cache c os h
    simp only [files_outcomes] at h
    cases h1 : file_outcomes env cache f with
    | none => simp [h1] at h
    | some t =>
      simp only [h1] at h
      cases h2 : files_outcomes env t.1 rest with
      | none => simp [h2] at h
      | some u =>
        simp only [h2] at h
        have hp := Option.some.inj h
        have hc : u.1 = c := congrArg Prod.fst hp
        have hos : t.2 ++ u.2 = os := congrArg Prod.snd hp
        obtain ⟨st1, hr1, hs1⟩ := file_rel env cache f t.1 t.2 (by rw [h1])
        obtain ⟨st2, hr2, hs2⟩ := ih t.1 u.1 u.2 (by rw [h2])
        refine ⟨stats_add st1 st2, ?_, ?_⟩
        · simp only [recover_files, hr1, hr2]
          rw [hc]
        · rw [← hos]
          have hadd : sum3 (stats_add st1 st2) = sum3 st1 + sum3 st2 := by
            simp [sum3, stats_add]; omega
          rw [hadd, ndropped_append, List.length_append]
          omega

theorem all_rel (env : env_t) :
    ∀ (shards : List (List segment_file)) (os : List proc_outcome),
    all_outcomes env shards = some os →
    ∃ st, recover_all env shards = .ok st ∧
      sum3 st + ndropped os = os.length := by
  intro shards
  induction shards with
  | nil =>
    intro os h
    simp only [all_outcomes] at h
    have hos := Option.some.inj h
    refine ⟨stats0, rfl, ?_⟩
    rw [← hos]; simp [ndropped, sum3, stats0]
  | cons l rest ih =>
    intro os h
    simp only [all_outcomes] at h
    cases h1 : files_outcomes env [] l with
    | none => simp [h1] at h
    | some t =>
      simp only [h1] at h
      cases h2 : all_outcomes env rest with
      | none => simp [h2] at h
      | some os2 =>
        simp only [h2] at h
        have hos := Option.some.inj h
        obtain ⟨st1, hr1, hs1⟩ := files_rel env l [] t.1 t.2 (by rw [h1])
        obtain ⟨st2, hr2, hs2⟩ := ih os2 h2
        refine ⟨stats_add st1 st2, ?_, ?_⟩
        · simp only [recover_all, hr1, hr2]
        · rw [← hos]
          have hadd : sum3 (stats_add st1 st2) = sum3 st1 + sum3 st2 := by
            simp [sum3, stats_add]; omega
          rw [hadd, ndropped_append, List.length_append]
          omega

/-- Claim C5 counterexample: one uncorrupted segment holding one decodable
entry whose table (7) is no longer in the catalogue: recovery finishes
with `applied = skipped = invalid = 0`, while the file holds one
decodable entry — the silently-dropped entry is counted nowhere, so
`applied + skipped + invalid` is not the number of decodable entries. -/
theorem claim5_counterexample :
    recover_files ⟨[(0, 0)], [(2, [])], [(2, rp_empty)]⟩ []
      [⟨2, 1, [(0, some ⟨7, 1, some 3, 0, true⟩)], .ok⟩] =
      .ok ([(1, 3)], stats0) ∧
    decodable_entries [⟨2, 1, [(0, some ⟨7, 1, some 3, 0, true⟩)], .ok⟩] = 1 ∧
    stats0.applied_mutations + stats0.skipped_mutations +
      stats0.invalid_mutations = 0 ∧
    (0 : Nat) ≠ 1 :=
  ⟨by rfl, by decide, by decide, by decide⟩

/-- Claim C5 (amended): over any replay run, every entry delivered to
`process` increments exactly one of `applied`, `skipped`, `invalid` —
except an entry silently dropped because its table no longer exists,
which increments none — so `applied + skipped + invalid` plus the
number of dropped entries equals the number of entries processed
across all files. -/
theorem claim5_theorem (env : env_t) (shards : List (List segment_file))
    (os : List proc_outcome) (st : stats)
    (h1 : all_outcomes env shards = some os)
    (h2 : recover_all env shards = .ok st) :
    st.applied_mutations + st.skipped_mutations + st.invalid_mutations +
      ndropped os = os.length := by
  obtain ⟨st0, hrec, hsum⟩ := all_rel env shards os h1
  rw [h2] at hrec
  have hst : st = st0 := Except.ok.inj hrec
  rw [hst]
  exact hsum

/-- Claim C5 witness: one shard, one file with two decodable entries —
one applied, one silently dropped (table 9 missing): `1 + 0 + 0 + 1 = 2`. -/
theorem claim5_witness :
    all_outcomes ⟨[(0, 0)], [(3, [])], [(3, rp_empty)]⟩
      [[⟨3, 1, [(0, some ⟨0, 1, some 0, 0, true⟩),
          (4, some ⟨9, 1, none, 0, true⟩)], .ok⟩]] =
      some [.applied, .dropped] ∧
    recover_all ⟨[(0, 0)], [(3, [])], [(3, rp_empty)]⟩
      [[⟨3, 1, [(0, some ⟨0, 1, some 0, 0, true⟩),
          (4, some ⟨9, 1, none, 0, true⟩)], .ok⟩]] = .ok ⟨0, 0, 1, 0⟩ ∧
    (stats.mk 0 0 1 0).applied_mutations +
      (stats.mk 0 0 1 0).skipped_mutations +
      (stats.mk 0 0 1 0).invalid_mutations +
      ndropped [.applied, .dropped] =
      ([.applied, .dropped] : List proc_outcome).length :=
  ⟨by rfl, by rfl,
    claim5_theorem ⟨[(0, 0)], [(3, [])], [(3, rp_empty)]⟩
      [[⟨3, 1, [(0, some ⟨0, 1, some 0, 0, true⟩),
          (4, some ⟨9, 1, none, 0, true⟩)], .ok⟩]]
      [.applied, .dropped] ⟨0, 0, 1, 0⟩ (by decide) (by rfl)⟩

/-- Claim C8: when reading a segment ends with tail corruption of `b`
bytes, `recover` adds `b` to `corrupt_bytes` (which the per-entry
processing never touches) and returns the statistics accumulated for
the entries read before the corruption, and the shard's replay
continues with its remaining files; any other read failure propagates
out of `recover` and aborts the replay chain. -/
theorem claim8_theorem (env : env_t) (cache c1 : schema_cache)
    (f : segment_file) (gp : replay_position) (b : Nat)
    (rest : List segment_file) (os : List proc_outcome)
    (hg : alookup f.shard_id env.min_pos = some gp)
    (hid : ¬ f.id < gp.id)
    (hP : process_all env f.shard_id f.id cache
      (read_log_file f (if f.id = gp.id then gp.pos else 0)) = (c1, os)) :
    (f.tail = .corrupt b →
      recover env cache f = .ok (c1, add_corrupt (tally os) b) ∧
      (tally os).corrupt_bytes = 0 ∧
      recover_files env cache (f :: rest) =
        except_add (add_corrupt (tally os) b) (recover_files env c1 rest)) ∧
    (f.tail = .io_error →
      recover env cache f = .error .io_fail ∧
      recover_files env cache (f :: rest) = .error .io_fail) := by
  constructor
  · intro htail
    have hrec : recover env cache f = .ok (c1, add_corrupt (tally os) b) := by
      simp [recover, hg, hid, segment_run, hP, htail]
    refine ⟨hrec, tally_corrupt os, ?_⟩
    simp only [recover_files, hrec]
    cases hr2 : recover_files env c1 rest with
    | error e => simp [except_add]
    | ok u => simp [except_add]
  · intro htail
    have hrec : recover env cache f = .error .io_fail := by
      simp [recover, hg, hid, segment_run, htail]
    exact ⟨hrec, by simp only [recover_files, hrec]⟩

/-- Claim C8 witness: a segment with a 40-byte corrupt tail after one
well-formed applied entry, followed by one more clean file. -/
theorem claim8_witness :
    alookup (2 : Nat) ([(2, rp_empty)] : shard_rp_map) = some rp_empty ∧
    ¬ (1 : Nat) < rp_empty.id ∧
    process_all ⟨[(0, 0)], [(2, [])], [(2, rp_empty)]⟩ 2 1 []
      (read_log_file ⟨2, 1, [(0, some ⟨0, 1, some 0, 0, true⟩)], .corrupt 40⟩
        (if (1 : Nat) = rp_empty.id then rp_empty.pos else 0)) =
      ([(1, 0)], [.applied]) ∧
    ((segment_file.mk 2 1 [(0, some ⟨0, 1, some 0, 0, true⟩)]
        (.corrupt 40)).tail = .corrupt 40 →
      recover ⟨[(0, 0)], [(2, [])], [(2, rp_empty)]⟩ []
          ⟨2, 1, [(0, some ⟨0, 1, some 0, 0, true⟩)], .corrupt 40⟩ =
        .ok ([(1, 0)], add_corrupt (tally [.applied]) 40) ∧
      (tally [.applied]).corrupt_bytes = 0 ∧
      recover_files ⟨[(0, 0)], [(2, [])], [(2, rp_empty)]⟩ []
          (⟨2, 1, [(0, some ⟨0, 1, some 0, 0, true⟩)], .corrupt 40⟩ ::
            [⟨2, 1, [], .ok⟩]) =
        except_add (add_corrupt (tally [.applied]) 40)
          (recover_files ⟨[(0, 0)], [(2, [])], [(2, rp_empty)]⟩ [(1, 0)]
            [⟨2, 1, [], .ok⟩])) :=
  ⟨by decide, by decide, by rfl,
    (claim8_theorem ⟨[(0, 0)], [(2, [])], [(2, rp_empty)]⟩ [] [(1, 0)]
      ⟨2, 1, [(0, some ⟨0, 1, some 0, 0, true⟩)], .corrupt 40⟩ rp_empty 40
      [⟨2, 1, [], .ok⟩] [.applied]
      (by decide) (by decide) (by rfl)).1⟩

/-- Claim C9: for a segment whose filename id equals the shard's
global-minimum id, reading starts at the minimum's offset
(`read_log_file f gp.pos`); for a larger id reading starts at offset 0,
delivering every entry; and for a smaller id the segment is not read at
all and `recover` returns zero statistics with the cache untouched. -/
theorem claim9_theorem (env : env_t) (cache : schema_cache)
    (f : segment_file) (gp : replay_position)
    (hg : alookup f.shard_id env.min_pos = some gp) :
    (f.id = gp.id → recover env cache f = segment_run env cache f gp.pos) ∧
    (gp.id < f.id →
      recover env cache f = segment_run env cache f 0 ∧
      read_log_file f 0 = f.entries) ∧
    (f.id < gp.id → recover env cache f = .ok (cache, stats0)) := by
  refine ⟨?_, ?_, ?_⟩
  · intro he
    have hnlt : ¬ f.id < gp.id := by omega
    simp [recover, hg, hnlt, he]
  · intro hgt
    have hnlt : ¬ f.id < gp.id := by omega
    have hne : ¬ f.id = gp.id := by omega
    refine ⟨by simp [recover, hg, hnlt, hne], ?_⟩
    simp [read_log_file]
  · intro hlt
    simp [recover, hg, hlt]

/-- Claim C9 witness: global minimum `(id 7, offset 5)` on shard 2 and a
segment with id 7: recovery equals a run that starts reading at
offset 5, so the entry at offset 3 is not delivered. -/
theorem claim9_witness :
    alookup (2 : Nat) ([(2, ⟨2, 7, 5⟩)] : shard_rp_map) = some ⟨2, 7, 5⟩ ∧
    ((7 : Nat) = (7 : Nat) →
      recover ⟨[], [], [(2, ⟨2, 7, 5⟩)]⟩ []
          ⟨2, 7, [(3, none), (6, none)], .ok⟩ =
        segment_run ⟨[], [], [(2, ⟨2, 7, 5⟩)]⟩ []
          ⟨2, 7, [(3, none), (6, none)], .ok⟩ 5) ∧
    read_log_file ⟨2, 7, [(3, none), (6, none)], .ok⟩ 5 = [(6, none)] :=
  ⟨by decide,
    (claim9_theorem ⟨[], [], [(2, ⟨2, 7, 5⟩)]⟩ []
      ⟨2, 7, [(3, none), (6, none)], .ok⟩ ⟨2, 7, 5⟩ (by decide)).1,
    by rfl⟩

/-- Claim C10: with a fresh catalogue — one live table, no on-disk files,
no truncation records — `init` leaves `_min_pos` empty, and `recover`
on a segment of three well-formed entries for that table throws
`std::out_of_range` from `_min_pos.at(shard)` instead of succeeding
with `applied = 3`: the replay aborts. -/
theorem claim10_code_bug :
    (init [[]] [(0, 0)]).2 = [] ∧
    recover_files
      ⟨[(0, 0)], (init [[]] [(0, 0)]).1, (init [[]] [(0, 0)]).2⟩ []
      [⟨0, 1, [(0, some ⟨0, 0, some 0, 0, true⟩),
          (8, some ⟨0, 0, some 0, 1, true⟩),
          (16, some ⟨0, 0, some 0, 2, true⟩)], .ok⟩] =
      .error .out_of_range :=
  ⟨by rfl, by rfl⟩

end CLReplay
